import Mathlib

/-!
Verification development for the stock-strategy backtester
(`backend/main.py`).  The backtesting core is shallowly embedded:

* `Rule`, `evaluateCondition` follow `SMAStrategy._evaluate_condition`
  (main.py lines 151-163): case-insensitive substring matching of the
  condition text against four canonical comparisons, defaulting to the
  greater-than comparison.
* `nextBar` follows `SMAStrategy.next` (lines 128-149): append an equity
  point computed from the broker state as it stands at the start of the
  bar, evaluate the rule, then dispatch `buy`/`sell` by exact string
  comparison guarded by the position state.
* `run_backtest` metrics follow `run_backtest` (lines 203-234):
  initial cash 10000, commission 0.001, win rate from trades with
  gross pnl strictly above 0, Sharpe ratio from consecutive
  equity-curve deltas.

The order-execution mechanics (all-in sizing, commission on entry and
exit, mark-to-market valuation) and the per-bar scheduling live in the
external `backtrader` library, which is not part of this repository;
those definitions are modelled from the specification and are marked
as such in their doc comments.  Prices and cash are rationals; dates
are abstracted as natural-number ordinals.
-/

/-- The declarative rule (`Rule` pydantic model, main.py lines 39-42). -/
structure Rule where
  if_condition : String
  then_action : String
  else_action : String

/-- One input price bar: a date ordinal and a closing price. -/
structure Bar where
  date : ℕ
  close : ℚ

/-- Modelled from the spec: the open position held by the backtrader
broker (spec section 4.3); `committed` is the cash converted into the
position at entry. -/
structure Position where
  entry_date : ℕ
  entry_price : ℚ
  size : ℚ
  committed : ℚ

/-- Modelled from the spec: the backtrader broker state, cash plus at
most one open position (spec sections 3 and 4.3). -/
structure BrokerState where
  cash : ℚ
  position : Option Position

/-- A closed trade as recorded by `SMAStrategy.notify_trade`
(main.py lines 165-172): entry/exit dates, gross and net pnl. -/
structure Trade where
  entry_date : ℕ
  exit_date : ℕ
  pnl : ℚ
  pnl_net : ℚ

/-- One equity-curve entry as appended by `SMAStrategy.next`
(main.py lines 132-137).  The indicator value is optional because the
simple moving average is undefined until its window fills. -/
structure EquityPoint where
  date : ℕ
  portfolio_value : ℚ
  price : ℚ
  sma : Option ℚ

/-- Lower-casing of a string, as Python `str.lower` applied to the
ASCII rule texts (main.py line 152). -/
def lowerStr (s : String) : String := ⟨s.data.map Char.toLower⟩

/-- Does the second list start the first list?  Helper for the Python
substring operator. -/
def listStarts : List Char → List Char → Bool
  | [], _ => true
  | _ :: _, [] => false
  | a :: as, b :: bs => a == b && listStarts as bs

/-- Does the needle occur contiguously inside the haystack?  Helper
for the Python substring operator. -/
def listContains (needle : List Char) : List Char → Bool
  | [] => needle.isEmpty
  | b :: bs => listStarts needle (b :: bs) || listContains needle bs

/-- The Python substring test `needle in hay` (main.py lines 154-161). -/
def strContains (hay needle : String) : Bool := listContains needle.data hay.data

/-- `SMAStrategy._evaluate_condition` (main.py lines 151-163): lower
the condition text, test the four canonical comparisons as substrings
in source order, and fall back to the greater-than comparison. -/
def evaluateCondition (rule : Rule) (price sma : ℚ) : Bool :=
  let condition := lowerStr rule.if_condition
  if strContains condition "price > sma" then decide (price > sma)
  else if strContains condition "price < sma" then decide (price < sma)
  else if strContains condition "price >= sma" then decide (price ≥ sma)
  else if strContains condition "price <= sma" then decide (price ≤ sma)
  else decide (price > sma)

/-- Modelled from the spec: when the moving average is not yet
available the condition is treated as not met (spec section 4.2);
otherwise `SMAStrategy._evaluate_condition` decides it. -/
def conditionMet (rule : Rule) (price : ℚ) (smaOpt : Option ℚ) : Bool :=
  match smaOpt with
  | none => false
  | some m => evaluateCondition rule price m

/-- The last `w` elements of a list (the trailing window). -/
def takeLast (w : ℕ) (l : List ℚ) : List ℚ := l.drop (l.length - w)

/-- Modelled from the spec: the trailing simple moving average
computed by `bt.indicators.SimpleMovingAverage` (spec section 4.1) -
unavailable until `w` closes have been seen, the mean of the last `w`
closes afterwards. -/
def smaOf (w : ℕ) (closes : List ℚ) : Option ℚ :=
  if 0 < w ∧ w ≤ closes.length then some ((takeLast w closes).sum / (w : ℚ)) else none

/-- Modelled from the spec: `broker.getvalue()` - cash plus the open
position marked to market at the current price (spec section 4.3). -/
def brokerValue (b : BrokerState) (price : ℚ) : ℚ :=
  b.cash + (match b.position with
            | some p => p.size * price
            | none => 0)

/-- Modelled from the spec: executing `self.buy()` while flat converts
the entire cash balance into a position of size
`cash * (1 - commission) / price` and zeroes the cash
(spec section 4.3). -/
def brokerBuy (b : BrokerState) (price : ℚ) (date : ℕ) (comm : ℚ) : BrokerState :=
  match b.position with
  | some _ => b
  | none =>
      { cash := 0,
        position := some { entry_date := date, entry_price := price,
                           size := b.cash * (1 - comm) / price, committed := b.cash } }

/-- Modelled from the spec: executing `self.sell()` while holding
liquidates the whole position, charges commission on the proceeds and
emits the closed trade that `SMAStrategy.notify_trade` records
(spec section 4.3, main.py lines 165-172). -/
def brokerSell (b : BrokerState) (price : ℚ) (date : ℕ) (comm : ℚ) :
    BrokerState × Option Trade :=
  match b.position with
  | none => (b, none)
  | some p =>
      let gross := p.size * price
      let cashAfter := gross * (1 - comm)
      ({ cash := cashAfter, position := none },
       some { entry_date := p.entry_date, exit_date := date,
              pnl := gross - p.committed, pnl_net := cashAfter - p.committed })

/-- The running state of one backtest: the broker, the closes seen so
far (feeding the indicator), the equity curve and the closed-trade
ledger accumulated by the strategy object. -/
structure EngState where
  broker : BrokerState
  seen : List ℚ
  equity : List EquityPoint
  trades : List Trade

/-- The action `SMAStrategy.next` chooses on a bar (main.py lines
139-144): `then_action` when the condition holds, `else_action`
otherwise, given the closes seen before this bar. -/
def actionFor (w : ℕ) (rule : Rule) (seen : List ℚ) (bar : Bar) : String :=
  if conditionMet rule bar.close (smaOf w (seen ++ [bar.close])) then rule.then_action
  else rule.else_action

/-- One bar of `SMAStrategy.next` (main.py lines 128-149): record the
equity point from the pre-action broker state, choose the action, and
dispatch it - `buy` only when flat, `sell` only when holding, anything
else is a no-op. -/
def nextBar (comm : ℚ) (w : ℕ) (rule : Rule) (s : EngState) (bar : Bar) : EngState :=
  let seen := s.seen ++ [bar.close]
  let equity := s.equity ++
    [{ date := bar.date, portfolio_value := brokerValue s.broker bar.close,
       price := bar.close, sma := smaOf w seen }]
  let action := actionFor w rule s.seen bar
  if action == "buy" && s.broker.position.isNone then
    { broker := brokerBuy s.broker bar.close bar.date comm, seen := seen,
      equity := equity, trades := s.trades }
  else if action == "sell" && s.broker.position.isSome then
    let r := brokerSell s.broker bar.close bar.date comm
    { broker := r.1, seen := seen, equity := equity,
      trades := s.trades ++ (match r.2 with | some t => [t] | none => []) }
  else
    { broker := s.broker, seen := seen, equity := equity, trades := s.trades }

/-- The initial cash set by `run_backtest` (main.py line 209). -/
def initialCash : ℚ := 10000

/-- The commission rate set by `run_backtest` (main.py line 211). -/
def commissionRate : ℚ := 1 / 1000

/-- The state before the first bar: full cash, flat, empty curve and
ledger. -/
def initState : EngState :=
  { broker := { cash := initialCash, position := none },
    seen := [], equity := [], trades := [] }

/-- Modelled from the spec: `cerebro.run()` - the engine feeds the
bars to the strategy one at a time in order (spec section 4.4). -/
def runEngine (w : ℕ) (rule : Rule) (bars : List Bar) : EngState :=
  bars.foldl (nextBar commissionRate w rule) initState

/-- The closing price of the last bar, at which the final portfolio
value is marked; 0 for an empty series. -/
def lastClose (bars : List Bar) : ℚ :=
  match bars.getLast? with
  | some b => b.close
  | none => 0

/-- The trades with gross pnl strictly above 0
(gross pnl above 0, main.py line 219). -/
def winningTrades (ts : List Trade) : List Trade :=
  ts.filter (fun t => decide (0 < t.pnl))

/-- `win_rate` (main.py line 221): winners over total times 100, and 0
when there are no trades. -/
def winRate (ts : List Trade) : ℚ :=
  if 0 < ts.length then ((winningTrades ts).length : ℚ) / (ts.length : ℚ) * 100 else 0

/-- The summary record built by `run_backtest` (main.py lines
227-234), without the floating-point rounding and with the Sharpe
ratio handled separately over the reals. -/
structure BacktestResult where
  total_return : ℚ
  win_rate : ℚ
  number_of_trades : ℕ
  equity_curve : List EquityPoint
  final_portfolio_value : ℚ

/-- `run_backtest` (main.py lines 203-234): run the engine over the
bars and reduce the final state to the summary metrics. -/
def run_backtest (w : ℕ) (rule : Rule) (bars : List Bar) : BacktestResult :=
  let s := runEngine w rule bars
  let finalValue := brokerValue s.broker (lastClose bars)
  { total_return := (finalValue - initialCash) / initialCash * 100,
    win_rate := winRate s.trades,
    number_of_trades := s.trades.length,
    equity_curve := s.equity,
    final_portfolio_value := finalValue }

/-- `np.diff` over the equity values (main.py line 224): consecutive
differences. -/
noncomputable def npDiff (v : List ℝ) : List ℝ :=
  List.zipWith (fun next prev => next - prev) v.tail v.dropLast

/-- The per-bar returns exactly as `run_backtest` computes them
(main.py line 224): `np.diff(values) / values[:-1]`, elementwise. -/
noncomputable def npReturns (v : List ℝ) : List ℝ :=
  List.zipWith (fun d prev => d / prev) (npDiff v) v.dropLast

/-- The per-bar simple returns in the form the specification states
them: `r_i = (v_i - v_(i-1)) / v_(i-1)` over consecutive portfolio
values (spec section 4.5). -/
noncomputable def specReturns (v : List ℝ) : List ℝ :=
  (List.range (v.length - 1)).map
    (fun i => (v.getD (i + 1) 0 - v.getD i 0) / v.getD i 0)

/-- `np.mean`: the arithmetic mean of a list of reals. -/
noncomputable def meanR (v : List ℝ) : ℝ := v.sum / (v.length : ℝ)

/-- `np.std`: the population standard deviation, the square root of
the mean squared deviation from the mean. -/
noncomputable def stdR (v : List ℝ) : ℝ :=
  Real.sqrt (meanR (v.map (fun x => (x - meanR v) ^ 2)))

open Classical in
/-- The Sharpe ratio as `run_backtest` computes it (main.py line 225):
`mean(returns) / std(returns) * sqrt(252)` when the standard deviation
of the returns is nonzero, and 0 otherwise, over the `np.diff`-style
returns. -/
noncomputable def sharpeOf (v : List ℝ) : ℝ :=
  if stdR (npReturns v) ≠ 0 then meanR (npReturns v) / stdR (npReturns v) * Real.sqrt 252
  else 0

/-- The equity-curve portfolio values of a run, as reals
(main.py line 223). -/
noncomputable def equityValues (w : ℕ) (rule : Rule) (bars : List Bar) : List ℝ :=
  (runEngine w rule bars).equity.map (fun p => ((p.portfolio_value : ℚ) : ℝ))

/-- The Sharpe ratio reported for a run (main.py lines 223-225). -/
noncomputable def sharpeOfRun (w : ℕ) (rule : Rule) (bars : List Bar) : ℝ :=
  sharpeOf (equityValues w rule bars)

/-- The request body of the backtest endpoints (`BacktestRequest`,
main.py lines 44-49), with the two dates abstracted as ordinals of
already-parsed calendar dates. -/
structure BacktestRequest where
  ticker : String
  start_date : ℕ
  end_date : ℕ
  sma_period : ℤ
  rule : Rule

/-- The only validation the endpoints run before `run_backtest`
(main.py lines 248-253 and 344-349): the parsed start date must lie
strictly before the end date.  No other request field is examined. -/
def validateDates (req : BacktestRequest) : Bool :=
  decide (req.start_date < req.end_date)

/-- The worked scenario of spec section 8: rule "price > sma" with
then-action buy and else-action hold. -/
def ruleScen : Rule := ⟨"price > sma", "buy", "hold"⟩

/-- The worked scenario of spec section 8: closes 10, 11, 12, 9, 8, 13
on consecutive dates. -/
def scenBars : List Bar := [⟨0, 10⟩, ⟨1, 11⟩, ⟨2, 12⟩, ⟨3, 9⟩, ⟨4, 8⟩, ⟨5, 13⟩]

theorem nextBar_seen (comm : ℚ) (w : ℕ) (rule : Rule) (s : EngState) (bar : Bar) :
    (nextBar comm w rule s bar).seen = s.seen ++ [bar.close] := by
  simp only [nextBar]
  split
  · rfl
  · split <;> rfl

theorem nextBar_equity (comm : ℚ) (w : ℕ) (rule : Rule) (s : EngState) (bar : Bar) :
    (nextBar comm w rule s bar).equity = s.equity ++
      [{ date := bar.date, portfolio_value := brokerValue s.broker bar.close,
         price := bar.close, sma := smaOf w (s.seen ++ [bar.close]) }] := by
  simp only [nextBar]
  split
  · rfl
  · split <;> rfl

theorem nextBar_trades_of_not_sell (comm : ℚ) (w : ℕ) (rule : Rule) (s : EngState)
    (bar : Bar) (h : actionFor w rule s.seen bar ≠ "sell") :
    (nextBar comm w rule s bar).trades = s.trades := by
  simp only [nextBar]
  split
  · rfl
  · split
    · next hcond =>
        rw [Bool.and_eq_true] at hcond
        exact absurd (beq_iff_eq.mp hcond.1) h
    · rfl

theorem nextBar_trades_of_flat (comm : ℚ) (w : ℕ) (rule : Rule) (s : EngState)
    (bar : Bar) (hf : s.broker.position = none) :
    (nextBar comm w rule s bar).trades = s.trades := by
  simp only [nextBar]
  split
  · rfl
  · split
    · next hcond =>
        rw [Bool.and_eq_true] at hcond
        rw [hf] at hcond
        exact absurd hcond.2 (by simp [Option.isSome])
    · rfl

theorem nextBar_broker_of_noop (comm : ℚ) (w : ℕ) (rule : Rule) (s : EngState)
    (bar : Bar) (h1 : actionFor w rule s.seen bar ≠ "buy")
    (h2 : actionFor w rule s.seen bar ≠ "sell") :
    (nextBar comm w rule s bar).broker = s.broker := by
  simp only [nextBar]
  split
  · next hcond =>
      rw [Bool.and_eq_true] at hcond
      exact absurd (beq_iff_eq.mp hcond.1) h1
  · split
    · next hcond =>
        rw [Bool.and_eq_true] at hcond
        exact absurd (beq_iff_eq.mp hcond.1) h2
    · rfl

theorem nextBar_broker_of_isSome_not_sell (comm : ℚ) (w : ℕ) (rule : Rule)
    (s : EngState) (bar : Bar) (hp : s.broker.position.isSome = true)
    (h : actionFor w rule s.seen bar ≠ "sell") :
    (nextBar comm w rule s bar).broker = s.broker := by
  simp only [nextBar]
  split
  · next hcond =>
      rw [Bool.and_eq_true] at hcond
      have hnone := hcond.2
      rw [Option.isNone_iff_eq_none] at hnone
      rw [hnone] at hp
      exact absurd hp (by simp [Option.isSome])
  · split
    · next hcond =>
        rw [Bool.and_eq_true] at hcond
        exact absurd (beq_iff_eq.mp hcond.1) h
    · rfl

theorem nextBar_broker_of_buy (comm : ℚ) (w : ℕ) (rule : Rule) (s : EngState)
    (bar : Bar) (h : actionFor w rule s.seen bar = "buy")
    (hf : s.broker.position = none) :
    (nextBar comm w rule s bar).broker = brokerBuy s.broker bar.close bar.date comm := by
  simp only [nextBar]
  split
  · rfl
  · next hcond =>
      exact absurd (by rw [h, hf]; rfl) hcond

theorem nextBar_broker_of_sell_flat (comm : ℚ) (w : ℕ) (rule : Rule) (s : EngState)
    (bar : Bar) (h : actionFor w rule s.seen bar = "sell")
    (hf : s.broker.position = none) :
    (nextBar comm w rule s bar).broker = s.broker := by
  simp only [nextBar]
  split
  · next hcond =>
      rw [Bool.and_eq_true] at hcond
      have := beq_iff_eq.mp hcond.1
      rw [h] at this
      exact absurd this (by decide)
  · split
    · next hcond =>
        rw [Bool.and_eq_true] at hcond
        have hsome := hcond.2
        rw [hf] at hsome
        exact absurd hsome (by simp [Option.isSome])
    · rfl

theorem nextBar_of_sell (comm : ℚ) (w : ℕ) (rule : Rule) (s : EngState)
    (bar : Bar) (p : Position) (h : actionFor w rule s.seen bar = "sell")
    (hp : s.broker.position = some p) :
    (nextBar comm w rule s bar).broker =
      { cash := p.size * bar.close * (1 - comm), position := none } ∧
    (nextBar comm w rule s bar).trades = s.trades ++
      [{ entry_date := p.entry_date, exit_date := bar.date,
         pnl := p.size * bar.close - p.committed,
         pnl_net := p.size * bar.close * (1 - comm) - p.committed }] := by
  simp only [nextBar]
  split
  · next hcond =>
      rw [Bool.and_eq_true] at hcond
      have := beq_iff_eq.mp hcond.1
      rw [h] at this
      exact absurd this (by decide)
  · split
    · constructor <;> simp [brokerSell, hp]
    · next hcond =>
        exact absurd (by rw [h, hp]; rfl) hcond

theorem actionFor_cases (w : ℕ) (rule : Rule) (seen : List ℚ) (bar : Bar) :
    actionFor w rule seen bar = rule.then_action ∨
    actionFor w rule seen bar = rule.else_action := by
  unfold actionFor
  split
  · exact Or.inl rfl
  · exact Or.inr rfl

theorem runFold_equity_length (comm : ℚ) (w : ℕ) (rule : Rule) :
    ∀ (bars : List Bar) (s : EngState),
      ((bars.foldl (nextBar comm w rule) s).equity).length = s.equity.length + bars.length := by
  intro bars
  induction bars with
  | nil => intro s; simp [List.foldl]
  | cons b bs ih =>
      intro s
      rw [List.foldl_cons, ih, nextBar_equity]
      simp [List.length_append]
      omega

theorem runFold_trades_of_no_sell (comm : ℚ) (w : ℕ) (rule : Rule)
    (h1 : rule.then_action ≠ "sell") (h2 : rule.else_action ≠ "sell") :
    ∀ (bars : List Bar) (s : EngState),
      ((bars.foldl (nextBar comm w rule) s).trades) = s.trades := by
  intro bars
  induction bars with
  | nil => intro s; rfl
  | cons b bs ih =>
      intro s
      rw [List.foldl_cons, ih, nextBar_trades_of_not_sell]
      rcases actionFor_cases w rule s.seen b with hc | hc <;> rw [hc]
      · exact h1
      · exact h2

theorem runFold_pos_of_no_sell (comm : ℚ) (w : ℕ) (rule : Rule)
    (h1 : rule.then_action ≠ "sell") (h2 : rule.else_action ≠ "sell") :
    ∀ (bars : List Bar) (s : EngState), s.broker.position.isSome = true →
      ((bars.foldl (nextBar comm w rule) s).broker.position.isSome) = true := by
  intro bars
  induction bars with
  | nil => intro s hs; exact hs
  | cons b bs ih =>
      intro s hs
      rw [List.foldl_cons]
      apply ih
      rw [nextBar_broker_of_isSome_not_sell comm w rule s b hs]
      · exact hs
      · rcases actionFor_cases w rule s.seen b with hc | hc <;> rw [hc]
        · exact h1
        · exact h2

/-- C1: on any bar where a buy action is dispatched while no position
is open, the broker converts the whole cash balance into the position:
the position size is `cash * (1 - commission) / price`, commission
charged on entry, and the cash balance is 0 immediately after the
buy. -/
theorem spec_C1_buy_converts_all_cash (comm : ℚ) (w : ℕ) (rule : Rule) (s : EngState)
    (bar : Bar) (hflat : s.broker.position = none)
    (hact : actionFor w rule s.seen bar = "buy") :
    (nextBar comm w rule s bar).broker.cash = 0 ∧
    (nextBar comm w rule s bar).broker.position =
      some { entry_date := bar.date, entry_price := bar.close,
             size := s.broker.cash * (1 - comm) / bar.close,
             committed := s.broker.cash } := by
  rw [nextBar_broker_of_buy comm w rule s bar hact hflat]
  unfold brokerBuy
  rw [hflat]
  exact ⟨rfl, rfl⟩

/-- Witness for C1: a rule whose else-action is buy fires on the first
bar of a fresh run and converts the full 10000 into the position. -/
theorem spec_C1_buy_converts_all_cash_witness :
    (nextBar commissionRate 5 ⟨"price > sma", "hold", "buy"⟩ initState ⟨0, 10⟩).broker.cash = 0 ∧
    (nextBar commissionRate 5 ⟨"price > sma", "hold", "buy"⟩ initState ⟨0, 10⟩).broker.position =
      some { entry_date := 0, entry_price := 10,
             size := initState.broker.cash * (1 - commissionRate) / 10,
             committed := initState.broker.cash } :=
  spec_C1_buy_converts_all_cash commissionRate 5 ⟨"price > sma", "hold", "buy"⟩ initState
    ⟨0, 10⟩ rfl (by decide)

/-- C2: the run appends exactly one equity point per input bar, so the
equity curve in the result has the same length as the input price
series, for every window and rule. -/
theorem spec_C2_equity_curve_length (w : ℕ) (rule : Rule) (bars : List Bar) :
    (run_backtest w rule bars).equity_curve.length = bars.length := by
  have h := runFold_equity_length commissionRate w rule bars initState
  simpa [run_backtest, runEngine, initState] using h

/-- C3: the condition text is matched case-insensitively by substring
against the four canonical comparisons, and a text matching none of
them evaluates as the greater-than comparison instead of raising an
error. -/
theorem spec_C3_condition_matching (s t a b a2 b2 : String) (p m : ℚ) :
    (lowerStr s = lowerStr t →
      evaluateCondition ⟨s, a, b⟩ p m = evaluateCondition ⟨t, a2, b2⟩ p m) ∧
    (strContains (lowerStr s) "price > sma" = true →
      evaluateCondition ⟨s, a, b⟩ p m = decide (p > m)) ∧
    (strContains (lowerStr s) "price > sma" = false →
      strContains (lowerStr s) "price < sma" = true →
      evaluateCondition ⟨s, a, b⟩ p m = decide (p < m)) ∧
    (strContains (lowerStr s) "price > sma" = false →
      strContains (lowerStr s) "price < sma" = false →
      strContains (lowerStr s) "price >= sma" = true →
      evaluateCondition ⟨s, a, b⟩ p m = decide (p ≥ m)) ∧
    (strContains (lowerStr s) "price > sma" = false →
      strContains (lowerStr s) "price < sma" = false →
      strContains (lowerStr s) "price >= sma" = false →
      strContains (lowerStr s) "price <= sma" = true →
      evaluateCondition ⟨s, a, b⟩ p m = decide (p ≤ m)) ∧
    (strContains (lowerStr s) "price > sma" = false →
      strContains (lowerStr s) "price < sma" = false →
      strContains (lowerStr s) "price >= sma" = false →
      strContains (lowerStr s) "price <= sma" = false →
      evaluateCondition ⟨s, a, b⟩ p m = decide (p > m)) := by
  refine ⟨?_, ?_, ?_, ?_, ?_, ?_⟩
  · intro h
    simp only [evaluateCondition]
    rw [h]
  · intro h1
    simp [evaluateCondition, h1]
  · intro h1 h2
    simp [evaluateCondition, h1, h2]
  · intro h1 h2 h3
    simp [evaluateCondition, h1, h2, h3]
  · intro h1 h2 h3 h4
    simp [evaluateCondition, h1, h2, h3, h4]
  · intro h1 h2 h3 h4
    simp [evaluateCondition, h1, h2, h3, h4]

/-- Witness for C3: an upper-case less-than condition evaluates as the
less-than comparison. -/
theorem spec_C3_condition_matching_witness :
    evaluateCondition ⟨"PRICE < SMA", "buy", "hold"⟩ 1 2 = decide ((1 : ℚ) < 2) :=
  (spec_C3_condition_matching "PRICE < SMA" "x" "buy" "hold" "y" "z" 1 2).2.2.1
    (by decide) (by decide)

/-- C4: the broker holds at most one open position; a buy request
while already holding and a sell request while flat leave the broker
state and the trade ledger unchanged. -/
theorem spec_C4_position_guards (comm : ℚ) (w : ℕ) (rule : Rule) (s : EngState)
    (bar : Bar) :
    (actionFor w rule s.seen bar = "buy" → s.broker.position.isSome = true →
      (nextBar comm w rule s bar).broker = s.broker ∧
      (nextBar comm w rule s bar).trades = s.trades) ∧
    (actionFor w rule s.seen bar = "sell" → s.broker.position = none →
      (nextBar comm w rule s bar).broker = s.broker ∧
      (nextBar comm w rule s bar).trades = s.trades) := by
  constructor
  · intro h hp
    refine ⟨nextBar_broker_of_isSome_not_sell comm w rule s bar hp ?_,
            nextBar_trades_of_not_sell comm w rule s bar ?_⟩ <;>
      · rw [h]; decide
  · intro h hf
    exact ⟨nextBar_broker_of_sell_flat comm w rule s bar h hf,
           nextBar_trades_of_flat comm w rule s bar hf⟩

/-- Witness for C4: a sell dispatched on a fresh (flat) run is a
no-op. -/
theorem spec_C4_position_guards_witness :
    (nextBar commissionRate 5 ⟨"price > sma", "hold", "sell"⟩ initState ⟨0, 10⟩).broker =
      initState.broker ∧
    (nextBar commissionRate 5 ⟨"price > sma", "hold", "sell"⟩ initState ⟨0, 10⟩).trades =
      initState.trades :=
  (spec_C4_position_guards commissionRate 5 ⟨"price > sma", "hold", "sell"⟩ initState
    ⟨0, 10⟩).2 (by decide) rfl

/-- C9: the equity point appended on a bar records the portfolio value
of the broker state as it stood before any action of that bar, and
the recorded point does not depend on the rule driving the actions. -/
theorem spec_C9_snapshot_before_action (comm : ℚ) (w : ℕ) (r1 r2 : Rule)
    (s : EngState) (bar : Bar) :
    (nextBar comm w r1 s bar).equity = s.equity ++
      [{ date := bar.date, portfolio_value := brokerValue s.broker bar.close,
         price := bar.close, sma := smaOf w (s.seen ++ [bar.close]) }] ∧
    (nextBar comm w r1 s bar).equity = (nextBar comm w r2 s bar).equity := by
  refine ⟨nextBar_equity comm w r1 s bar, ?_⟩
  rw [nextBar_equity, nextBar_equity]

/-- C10: actions are dispatched by exact, case-sensitive string
comparison - any action other than the exact strings "buy" and "sell"
leaves the broker and the trade ledger untouched. -/
theorem spec_C10_exact_string_dispatch (comm : ℚ) (w : ℕ) (rule : Rule) (s : EngState)
    (bar : Bar) (h1 : actionFor w rule s.seen bar ≠ "buy")
    (h2 : actionFor w rule s.seen bar ≠ "sell") :
    (nextBar comm w rule s bar).broker = s.broker ∧
    (nextBar comm w rule s bar).trades = s.trades :=
  ⟨nextBar_broker_of_noop comm w rule s bar h1 h2,
   nextBar_trades_of_not_sell comm w rule s bar h2⟩

/-- Witness for C10: the capitalized action "Buy" does not trigger a
buy - the broker is untouched. -/
theorem spec_C10_exact_string_dispatch_witness :
    (nextBar commissionRate 5 ⟨"price > sma", "hold", "Buy"⟩ initState ⟨0, 10⟩).broker =
      initState.broker ∧
    (nextBar commissionRate 5 ⟨"price > sma", "hold", "Buy"⟩ initState ⟨0, 10⟩).trades =
      initState.trades :=
  spec_C10_exact_string_dispatch commissionRate 5 ⟨"price > sma", "hold", "Buy"⟩ initState
    ⟨0, 10⟩ (by decide) (by decide)

theorem ruleScen_then : ruleScen.then_action = "buy" := rfl

theorem ruleScen_else : ruleScen.else_action = "hold" := rfl

theorem evalCond_ruleScen (p m : ℚ) : evaluateCondition ruleScen p m = decide (p > m) := by
  simp [evaluateCondition, ruleScen, lowerStr, strContains, listContains, listStarts]

/-- C5: trades are appended only when a sell closes an open position;
the reported trade count is the length of the closed-trade ledger; and
in the worked scenario of spec section 8 (closes 10, 11, 12, 9, 8, 13,
window 2, buy-else-hold rule) the position opened on the second bar is
still open after the last bar and the run reports zero trades - the
open position is not auto-liquidated into a final trade. -/
theorem spec_C5_no_auto_liquidation :
    (∀ (comm : ℚ) (w : ℕ) (rule : Rule) (s : EngState) (bar : Bar),
        (nextBar comm w rule s bar).trades = s.trades ∨
        (actionFor w rule s.seen bar = "sell" ∧ s.broker.position.isSome = true ∧
          (nextBar comm w rule s bar).broker.position = none ∧
          ∃ t, (nextBar comm w rule s bar).trades = s.trades ++ [t])) ∧
    (∀ (w : ℕ) (rule : Rule) (bars : List Bar),
        (run_backtest w rule bars).number_of_trades = (runEngine w rule bars).trades.length) ∧
    ((runEngine 2 ruleScen scenBars).broker.position.isSome = true ∧
      (run_backtest 2 ruleScen scenBars).number_of_trades = 0) := by
  refine ⟨?_, ?_, ?_, ?_⟩
  · intro comm w rule s bar
    by_cases hsell : actionFor w rule s.seen bar = "sell"
    · cases hp : s.broker.position with
      | none => exact Or.inl (nextBar_trades_of_flat comm w rule s bar hp)
      | some p =>
          have h := nextBar_of_sell comm w rule s bar p hsell hp
          refine Or.inr ⟨hsell, rfl, by rw [h.1], ⟨_, h.2⟩⟩
    · exact Or.inl (nextBar_trades_of_not_sell comm w rule s bar hsell)
  · intro w rule bars
    rfl
  · have key : runEngine 2 ruleScen scenBars =
        ([⟨2, 12⟩, ⟨3, 9⟩, ⟨4, 8⟩, ⟨5, 13⟩] : List Bar).foldl
          (nextBar commissionRate 2 ruleScen)
          (nextBar commissionRate 2 ruleScen
            (nextBar commissionRate 2 ruleScen initState ⟨0, 10⟩) ⟨1, 11⟩) := rfl
    rw [key]
    apply runFold_pos_of_no_sell commissionRate 2 ruleScen (by decide) (by decide)
    have h0b : (nextBar commissionRate 2 ruleScen initState ⟨0, 10⟩).broker =
        initState.broker :=
      nextBar_broker_of_noop commissionRate 2 ruleScen initState ⟨0, 10⟩
        (by decide) (by decide)
    have h0s : (nextBar commissionRate 2 ruleScen initState ⟨0, 10⟩).seen = [10] := by
      rw [nextBar_seen]
      rfl
    have h1a : actionFor 2 ruleScen
        (nextBar commissionRate 2 ruleScen initState ⟨0, 10⟩).seen ⟨1, 11⟩ = "buy" := by
      rw [h0s]
      norm_num [actionFor, conditionMet, smaOf, takeLast, evalCond_ruleScen,
        ruleScen_then, ruleScen_else]
    have h1b : (nextBar commissionRate 2 ruleScen
        (nextBar commissionRate 2 ruleScen initState ⟨0, 10⟩) ⟨1, 11⟩).broker =
        brokerBuy (nextBar commissionRate 2 ruleScen initState ⟨0, 10⟩).broker 11 1
          commissionRate :=
      nextBar_broker_of_buy commissionRate 2 ruleScen _ ⟨1, 11⟩ h1a (by rw [h0b]; rfl)
    rw [h1b, h0b]
    rfl
  · have h : (runEngine 2 ruleScen scenBars).trades = [] := by
      show (scenBars.foldl (nextBar commissionRate 2 ruleScen) initState).trades = []
      rw [runFold_trades_of_no_sell commissionRate 2 ruleScen (by decide) (by decide)
        scenBars initState]
      rfl
    show (runEngine 2 ruleScen scenBars).trades.length = 0
    rw [h]
    rfl

theorem specReturns_cons_cons (a b : ℝ) (t : List ℝ) :
    specReturns (a :: b :: t) = ((b - a) / a) :: specReturns (b :: t) := by
  simp only [specReturns, List.length_cons, Nat.add_sub_cancel, List.range_succ_eq_map,
    List.map_cons, List.map_map]
  refine List.cons_eq_cons.mpr ⟨by simp, ?_⟩
  apply List.map_congr_left
  intro i _
  simp [Function.comp, List.getD_cons_succ]

theorem npReturns_eq_specReturns (v : List ℝ) : npReturns v = specReturns v := by
  induction v with
  | nil => rfl
  | cons a v ih =>
      cases v with
      | nil => rfl
      | cons b t =>
          rw [specReturns_cons_cons, ← ih]
          rfl

open Classical in
/-- C6: the Sharpe ratio of a run is computed from the per-bar simple
returns over consecutive equity-curve portfolio values and equals
`mean(r) / stddev(r) * sqrt(252)` when the standard deviation of the
returns is nonzero, and 0 otherwise. -/
theorem spec_C6_sharpe_formula (w : ℕ) (rule : Rule) (bars : List Bar) :
    sharpeOfRun w rule bars =
      if stdR (specReturns (equityValues w rule bars)) ≠ 0 then
        meanR (specReturns (equityValues w rule bars)) /
          stdR (specReturns (equityValues w rule bars)) * Real.sqrt 252
      else 0 := by
  unfold sharpeOfRun sharpeOf
  rw [npReturns_eq_specReturns]

/-- C7: the win rate is the number of trades with gross pnl strictly
above 0 over the total number of closed trades, times 100, and it is 0
when the run closed no trades. -/
theorem spec_C7_win_rate (w : ℕ) (rule : Rule) (bars : List Bar) :
    ((runEngine w rule bars).trades.length ≠ 0 →
      (run_backtest w rule bars).win_rate =
        (((runEngine w rule bars).trades.countP (fun t => decide (0 < t.pnl))) : ℚ) /
          (((runEngine w rule bars).trades.length) : ℚ) * 100) ∧
    ((runEngine w rule bars).trades.length = 0 →
      (run_backtest w rule bars).win_rate = 0) := by
  constructor
  · intro h
    show winRate (runEngine w rule bars).trades = _
    unfold winRate winningTrades
    rw [if_pos (Nat.pos_of_ne_zero h), List.countP_eq_length_filter]
  · intro h
    show winRate (runEngine w rule bars).trades = 0
    unfold winRate
    rw [h]
    rfl

/-- Witness for C7: a run that never trades reports a win rate of 0
with no division by zero. -/
theorem spec_C7_win_rate_witness :
    (run_backtest 2 ⟨"price > sma", "hold", "hold"⟩ [⟨0, 10⟩]).win_rate = 0 :=
  (spec_C7_win_rate 2 ⟨"price > sma", "hold", "hold"⟩ [⟨0, 10⟩]).2 (by decide)

/-- C8 counterexample: a request with a non-positive SMA window (here
0) and validly ordered dates passes every check the endpoints run
before the backtest loop - the window is never examined, so such a
request is not rejected before the loop as the claim states. -/
theorem spec_C8_counterexample :
    ((⟨"AAPL", 0, 1, 0, ⟨"price > sma", "buy", "hold"⟩⟩ : BacktestRequest).sma_period ≤ 0) ∧
    validateDates ⟨"AAPL", 0, 1, 0, ⟨"price > sma", "buy", "hold"⟩⟩ = true :=
  ⟨by decide, by decide⟩

/-- C8 amended: the pre-loop validation examines only the date order
and is entirely independent of the SMA window, so a non-positive
window is never rejected before the loop. -/
theorem spec_C8_validation_ignores_window (req : BacktestRequest) (wAlt : ℤ) :
    validateDates { req with sma_period := wAlt } = validateDates req := rfl
